import Mathlib

/-!
Verification of the per-CPU slab cache (`TcmallocSlab`) from
`tcmalloc/internal/percpu_tcmalloc.{h,cc}`.

The embedding models the 64-bit packed header `{current, end_copy, begin, end}`
(four 16-bit fields), the rseq fast paths `Push`/`Pop`, the capacity paths
`Grow`/`GrowOtherCache`/`ShrinkOtherCache`, per-CPU initialization
(`InitCpuImpl`), `DrainCpu`, and the event order of `ResizeSlabs`.

Machine integers are modelled as `Nat` with explicit reductions modulo
`2 ^ 16` (for `uint16_t`) and `2 ^ 64` (for `size_t`) wherever the C++
arithmetic can wrap. Unsigned subtraction `a - b` at width `w` is modelled as
`(a + 2 ^ w - b) % 2 ^ w`, which agrees with two's-complement wraparound for
all `a, b < 2 ^ w`.
-/

namespace PerCpuTcmalloc

/-- `uint16_t` truncation. -/
def wrap16 (n : Nat) : Nat := n % 65536

/-- `size_t` truncation. -/
def wrap64 (n : Nat) : Nat := n % 18446744073709551616

/-- Wrapping `uint16_t` subtraction (two's complement), for operands below
`2 ^ 16`. -/
def sub16 (a b : Nat) : Nat := (a + 65536 - b) % 65536

/-- Wrapping `size_t` subtraction (two's complement), for operands below
`2 ^ 64`. -/
def sub64 (a b : Nat) : Nat := (a + 18446744073709551616 - b) % 18446744073709551616

/-- The packed 64-bit slab header of `TcmallocSlab::Header`: `current`,
`end_copy`, `begin`, `end`, in field order, each a `uint16_t` offset in
machine words from the start of the CPU region. `begin`/`end` are Lean
keywords, so the fields are named `beginOff`/`endOff`. -/
structure Header where
  current : Nat
  endCopy : Nat
  beginOff : Nat
  endOff : Nat
  deriving DecidableEq

/-- `Header::IsLocked`: the header counts as locked whenever `end == 0`
(this also covers never-initialized all-zero headers and madvised-away
pages, per the comment in the source). -/
def Header.isLocked (h : Header) : Bool := h.endOff == 0

/-- `TcmallocSlab::Length`: `hdr.IsLocked() ? 0 : hdr.current - hdr.begin`.
The subtraction happens on values promoted to `int` and the result is
returned as `size_t`, hence the 64-bit wrap. -/
def slabLength (h : Header) : Nat :=
  if h.isLocked then 0 else sub64 h.current h.beginOff

/-- `TcmallocSlab::Capacity`: `hdr.IsLocked() ? 0 : hdr.end - hdr.begin`. -/
def slabCapacity (h : Header) : Nat :=
  if h.isLocked then 0 else sub64 h.endOff h.beginOff

/-- The 64-bit memory image of a header: `current` occupies bits 0..15,
`end_copy` bits 16..31, `begin` bits 32..47, `end` bits 48..63 (the struct
layout used by `LoadHeader`/`StoreHeader` through `absl::bit_cast`). -/
def encodeHeader (h : Header) : Nat :=
  h.current + h.endCopy * 65536 + h.beginOff * 4294967296 +
    h.endOff * 281474976710656

/-- Decoding of a 64-bit header word into the four 16-bit fields. -/
def decodeHeader (x : Nat) : Header :=
  { current := x % 65536
    endCopy := x / 65536 % 65536
    beginOff := x / 4294967296 % 65536
    endOff := x / 281474976710656 % 65536 }

/-- `Header::Lock`: a single 32-bit store to the `lock_update` union member
(bytes 4..7 of the header) of the value `{begin = 0xffff, end = 0}`, i.e.
the 32-bit value `0xffff`. The low 32 bits (`current`, `end_copy`) are left
intact. -/
def lockWord (x : Nat) : Nat := x % 4294967296 + 65535 * 4294967296

/-- State visible to one CPU's fast path: whether the thread still has the
slab pointer cached (`tcmalloc_slabs` top bit), the header of the size class
being operated on, and the word-indexed slot array of the CPU region. -/
structure FastState (α : Type) where
  cached : Bool
  hdr : Header
  slots : Nat → α

/-- `TcmallocSlab_Internal_Push` inside the restartable sequence: abort (the
kernel restarted the sequence) commits nothing; a clear cached-slabs bit
fails; `current >= end` fails; otherwise the item is stored at slot
`current` and `current` is incremented by a 16-bit store. -/
def push {α : Type} (st : FastState α) (item : α) (abortRseq : Bool) :
    Bool × FastState α :=
  if abortRseq then (false, st)
  else if !st.cached then (false, st)
  else if st.hdr.endOff ≤ st.hdr.current then (false, st)
  else
    (true,
      { st with
        hdr := { st.hdr with current := wrap16 (st.hdr.current + 1) }
        slots := fun i => if i = st.hdr.current then item else st.slots i })

/-- `TcmallocSlab::Pop` inside the restartable sequence: abort or a clear
cached-slabs bit return the null value; `current <= begin` (the header's
`begin` field, offset 4 in the asm) underflows; otherwise the slot at
`current - 1` is returned and `current` is decremented by a 16-bit store. -/
def pop {α : Type} (st : FastState α) (abortRseq : Bool) :
    Option α × FastState α :=
  if abortRseq then (none, st)
  else if !st.cached then (none, st)
  else if st.hdr.current ≤ st.hdr.beginOff then (none, st)
  else
    (some (st.slots (st.hdr.current - 1)),
      { st with hdr := { st.hdr with current := st.hdr.current - 1 } })

/-- The `size_t` bits of `max_cap - (hdr.end - hdr.begin)` computed by
`TcmallocSlab::Grow`: the inner subtraction is exact (`int`), the outer one
wraps at 64 bits. -/
def growHave (maxCap begino endo : Nat) : Nat :=
  (maxCap + begino + 18446744073709551616 - endo) % 18446744073709551616

/-- `TcmallocSlab::Grow`: returns 0 leaving the header unchanged when the
header is locked or the headroom `have` is non-positive as `ssize_t`
(bit pattern zero or with the sign bit set); otherwise it adds
`n = min<uint16_t>(len, have)` to `end` and `end_copy` and publishes the
header with `StoreCurrentCpu`, which commits only if the thread still has
the slab pointer cached; a miss returns 0 with the shared header
unchanged. -/
def grow (hdr : Header) (cached : Bool) (len maxCap : Nat) : Nat × Header :=
  let hv := growHave maxCap hdr.beginOff hdr.endOff
  if hdr.isLocked = true ∨ hv = 0 ∨ 9223372036854775808 ≤ hv then (0, hdr)
  else
    let n := min (wrap16 len) (wrap16 hv)
    if cached = true then
      (n, { hdr with
              endOff := wrap16 (hdr.endOff + n)
              endCopy := wrap16 (hdr.endCopy + n) })
    else (0, hdr)

/-- C10: whenever the 16-bit `end` field of a header is 0 — the `IsLocked`
predicate, which also covers a never-initialized all-zero header and
madvised-away slab pages — `Length` and `Capacity` return 0 regardless of
the `current` and `begin` fields. -/
theorem locked_length_capacity_zero (h : Header) (hend : h.endOff = 0) :
    slabLength h = 0 ∧ slabCapacity h = 0 := by
  constructor <;> simp [slabLength, slabCapacity, Header.isLocked, hend]

theorem locked_length_capacity_zero_witness :
    (Header.mk 7 3 12 0).endOff = 0 ∧
      slabLength (Header.mk 7 3 12 0) = 0 ∧
        slabCapacity (Header.mk 7 3 12 0) = 0 :=
  ⟨by decide, locked_length_capacity_zero (Header.mk 7 3 12 0) (by decide)⟩

/-- C9: `Header::Lock` is a single 32-bit store writing `begin = 0xffff`,
`end = 0` into the high half of the 64-bit header word, leaving the low
32 bits — the 16-bit `current` and `end_copy` fields — unchanged; on the
resulting header every `Push` fails (returns `false`) and every `Pop` fails
(returns the null value), for any cached/abort combination. -/
theorem lock_preserves_current_end_copy (x : Nat) :
    (lockWord x) % 4294967296 = x % 4294967296 ∧
    (decodeHeader (lockWord x)).beginOff = 65535 ∧
    (decodeHeader (lockWord x)).endOff = 0 ∧
    (decodeHeader (lockWord x)).current = (decodeHeader x).current ∧
    (decodeHeader (lockWord x)).endCopy = (decodeHeader x).endCopy ∧
    (∀ (α : Type) (cached abortRseq : Bool) (slots : Nat → α) (item : α),
      (push ⟨cached, decodeHeader (lockWord x), slots⟩ item abortRseq).1
          = false ∧
      (pop ⟨cached, decodeHeader (lockWord x), slots⟩ abortRseq).1 = none) := by
  have hlow : lockWord x % 4294967296 = x % 4294967296 := by
    unfold lockWord
    omega
  have hx32 : x % 4294967296 = x % 65536 + (x / 65536 % 65536) * 65536 := by
    omega
  have hcur : (decodeHeader (lockWord x)).current = (decodeHeader x).current := by
    unfold decodeHeader lockWord
    simp only
    omega
  have hcopy : (decodeHeader (lockWord x)).endCopy
      = (decodeHeader x).endCopy := by
    unfold decodeHeader lockWord
    simp only
    omega
  have hbegin : (decodeHeader (lockWord x)).beginOff = 65535 := by
    unfold decodeHeader lockWord
    simp only
    omega
  have hend : (decodeHeader (lockWord x)).endOff = 0 := by
    unfold decodeHeader lockWord
    simp only
    omega
  refine ⟨hlow, hbegin, hend, hcur, hcopy, ?_⟩
  intro α cached abortRseq slots item
  have hcurlt : (decodeHeader (lockWord x)).current < 65536 := by
    unfold decodeHeader
    simp only
    omega
  constructor
  · unfold push
    rcases abortRseq with _ | _ <;> rcases cached with _ | _ <;>
      simp [hend]
  · unfold pop
    have hle : (decodeHeader (lockWord x)).current
        ≤ (decodeHeader (lockWord x)).beginOff := by
      rw [hbegin]
      omega
    rcases abortRseq with _ | _ <;> rcases cached with _ | _ <;>
      simp [hle]

/-- C1: on a CPU whose fast-path state has an Active header
(`0 < begin ≤ current ≤ end < 2^16`) for a nonzero size class:
(a) if the slab pointer is cached and a `Push` of `item` succeeds, the
following `Pop` returns exactly that item and removes it, returning
`current` to its pre-push value (a decrease by 1);
(b) if the slab pointer is cached and the cache is empty
(`current = begin`), `Pop` returns the null value and changes nothing;
(c) if the cached-slabs bit is clear, `Pop` returns the null value and
changes nothing;
(d) if the restartable sequence aborts, `Pop` returns the null value and
changes nothing. -/
theorem pop_returns_last_push {α : Type} (st : FastState α) (item : α)
    (hb : 1 ≤ st.hdr.beginOff) (hbc : st.hdr.beginOff ≤ st.hdr.current)
    (hce : st.hdr.current ≤ st.hdr.endOff) (he : st.hdr.endOff < 65536) :
    ((push st item false).1 = true →
        (pop (push st item false).2 false).1 = some item ∧
        (pop (push st item false).2 false).2.hdr.current = st.hdr.current) ∧
    (st.cached = true → st.hdr.current = st.hdr.beginOff →
        pop st false = (none, st)) ∧
    (st.cached = false → pop st false = (none, st)) ∧
    pop st true = (none, st) := by
  refine ⟨?_, ?_, ?_, ?_⟩
  · intro hsucc
    rcases hc : st.cached with _ | _
    · exfalso
      unfold push at hsucc
      simp [hc] at hsucc
    · by_cases hfull : st.hdr.endOff ≤ st.hdr.current
      · exfalso
        unfold push at hsucc
        simp [hc, hfull] at hsucc
      · have hlt : st.hdr.current < st.hdr.endOff := Nat.lt_of_not_le hfull
        have hwrap : wrap16 (st.hdr.current + 1) = st.hdr.current + 1 := by
          unfold wrap16
          omega
        unfold push
        simp only [hc, hfull]
        unfold pop
        simp only [hc, hwrap]
        have hnotund : ¬ (st.hdr.current + 1 ≤ st.hdr.beginOff) := by omega
        simp [hnotund, hc]
  · intro hc hempty
    unfold pop
    simp [hc, hempty]
  · intro hc
    unfold pop
    simp [hc]
  · unfold pop
    simp

theorem pop_returns_last_push_witness :
    (1 ≤ (FastState.mk true (Header.mk 4 2 4 6) (fun _ => (0 : Nat))).hdr.beginOff ∧
     (FastState.mk true (Header.mk 4 2 4 6) (fun _ => (0 : Nat))).hdr.beginOff ≤
       (FastState.mk true (Header.mk 4 2 4 6) (fun _ => (0 : Nat))).hdr.current ∧
     (FastState.mk true (Header.mk 4 2 4 6) (fun _ => (0 : Nat))).hdr.current ≤
       (FastState.mk true (Header.mk 4 2 4 6) (fun _ => (0 : Nat))).hdr.endOff ∧
     (FastState.mk true (Header.mk 4 2 4 6) (fun _ => (0 : Nat))).hdr.endOff < 65536) ∧
    (((push (FastState.mk true (Header.mk 4 2 4 6) (fun _ => (0 : Nat))) 42 false).1 = true →
        (pop (push (FastState.mk true (Header.mk 4 2 4 6) (fun _ => (0 : Nat))) 42 false).2 false).1 = some 42 ∧
        (pop (push (FastState.mk true (Header.mk 4 2 4 6) (fun _ => (0 : Nat))) 42 false).2 false).2.hdr.current =
          (FastState.mk true (Header.mk 4 2 4 6) (fun _ => (0 : Nat))).hdr.current) ∧
     ((FastState.mk true (Header.mk 4 2 4 6) (fun _ => (0 : Nat))).cached = true →
        (FastState.mk true (Header.mk 4 2 4 6) (fun _ => (0 : Nat))).hdr.current =
          (FastState.mk true (Header.mk 4 2 4 6) (fun _ => (0 : Nat))).hdr.beginOff →
        pop (FastState.mk true (Header.mk 4 2 4 6) (fun _ => (0 : Nat))) false =
          (none, FastState.mk true (Header.mk 4 2 4 6) (fun _ => (0 : Nat)))) ∧
     ((FastState.mk true (Header.mk 4 2 4 6) (fun _ => (0 : Nat))).cached = false →
        pop (FastState.mk true (Header.mk 4 2 4 6) (fun _ => (0 : Nat))) false =
          (none, FastState.mk true (Header.mk 4 2 4 6) (fun _ => (0 : Nat)))) ∧
     pop (FastState.mk true (Header.mk 4 2 4 6) (fun _ => (0 : Nat))) true =
       (none, FastState.mk true (Header.mk 4 2 4 6) (fun _ => (0 : Nat)))) :=
  ⟨⟨by decide, by decide, by decide, by decide⟩,
    pop_returns_last_push (FastState.mk true (Header.mk 4 2 4 6) (fun _ => (0 : Nat)))
      42 (by decide) (by decide) (by decide) (by decide)⟩

/-- C6: `Grow(cpu, s, len)` on a header with `begin ≤ end` (uint16 fields)
and a max-capacity callback value fitting the region:
(a) when the header is not locked, the thread still has the slab cached, and
`end - begin + len` is within `max_capacity`, it increments `end` and
`end_copy` by `n = min(len, max_capacity - (end - begin))` and returns `n`;
(b) it returns 0 leaving the header unchanged on a reschedule miss;
(c) likewise if the header is locked (`end == 0`);
(d) likewise when there is no headroom (`max_capacity ≤ end - begin`). -/
theorem grow_increments_capacity (hdr : Header) (cached : Bool)
    (len maxCap : Nat)
    (hbe : hdr.beginOff ≤ hdr.endOff) (he : hdr.endOff < 65536)
    (hec : hdr.endCopy ≤ hdr.endOff) (hlen1 : 1 ≤ len) (hlen : len < 65536)
    (hmc : maxCap + hdr.beginOff < 65536) :
    (hdr.endOff ≠ 0 → cached = true →
      hdr.endOff - hdr.beginOff + len ≤ maxCap →
      grow hdr cached len maxCap
        = (min len (maxCap - (hdr.endOff - hdr.beginOff)),
           { hdr with
             endCopy := hdr.endCopy
               + min len (maxCap - (hdr.endOff - hdr.beginOff))
             endOff := hdr.endOff
               + min len (maxCap - (hdr.endOff - hdr.beginOff)) })) ∧
    (cached = false → grow hdr cached len maxCap = (0, hdr)) ∧
    (hdr.endOff = 0 → grow hdr cached len maxCap = (0, hdr)) ∧
    (maxCap ≤ hdr.endOff - hdr.beginOff →
      grow hdr cached len maxCap = (0, hdr)) := by
  have hlocked : (hdr.isLocked = true) = (hdr.endOff = 0) := by
    simp [Header.isLocked]
  refine ⟨?_, ?_, ?_, ?_⟩
  · intro hne hcached hroom
    have hveq : growHave maxCap hdr.beginOff hdr.endOff
        = maxCap + hdr.beginOff - hdr.endOff := by
      unfold growHave
      omega
    have hcond : ¬ (hdr.isLocked = true
        ∨ growHave maxCap hdr.beginOff hdr.endOff = 0
        ∨ 9223372036854775808 ≤ growHave maxCap hdr.beginOff hdr.endOff) := by
      rw [hlocked, hveq]
      push_neg
      refine ⟨hne, by omega, by omega⟩
    unfold grow
    rw [if_neg hcond, if_pos hcached]
    have hw1 : wrap16 len = len := by
      unfold wrap16
      omega
    have hw2 : wrap16 (growHave maxCap hdr.beginOff hdr.endOff)
        = maxCap + hdr.beginOff - hdr.endOff := by
      unfold wrap16
      rw [hveq]
      omega
    rw [hw1, hw2]
    have hmin : min len (maxCap + hdr.beginOff - hdr.endOff)
        = min len (maxCap - (hdr.endOff - hdr.beginOff)) := by
      omega
    have hwe : wrap16 (hdr.endOff
        + min len (maxCap + hdr.beginOff - hdr.endOff))
        = hdr.endOff + min len (maxCap + hdr.beginOff - hdr.endOff) := by
      unfold wrap16
      omega
    have hwc : wrap16 (hdr.endCopy
        + min len (maxCap + hdr.beginOff - hdr.endOff))
        = hdr.endCopy + min len (maxCap + hdr.beginOff - hdr.endOff) := by
      unfold wrap16
      omega
    rw [hwe, hwc, hmin]
  · intro hmiss
    unfold grow
    by_cases hcond : hdr.isLocked = true
        ∨ growHave maxCap hdr.beginOff hdr.endOff = 0
        ∨ 9223372036854775808 ≤ growHave maxCap hdr.beginOff hdr.endOff
    · rw [if_pos hcond]
    · rw [if_neg hcond, hmiss]
      simp
  · intro hzero
    unfold grow
    rw [if_pos (Or.inl (by rw [hlocked]; exact hzero))]
  · intro hnoroom
    unfold grow
    have hle : maxCap + hdr.beginOff ≤ hdr.endOff := by omega
    have hcond : hdr.isLocked = true
        ∨ growHave maxCap hdr.beginOff hdr.endOff = 0
        ∨ 9223372036854775808 ≤ growHave maxCap hdr.beginOff hdr.endOff := by
      by_cases hz : maxCap + hdr.beginOff = hdr.endOff
      · refine Or.inr (Or.inl ?_)
        unfold growHave
        omega
      · refine Or.inr (Or.inr ?_)
        unfold growHave
        omega
    rw [if_pos hcond]

theorem grow_increments_capacity_witness :
    ((Header.mk 4 4 4 4).beginOff ≤ (Header.mk 4 4 4 4).endOff ∧
     (Header.mk 4 4 4 4).endOff < 65536 ∧
     (Header.mk 4 4 4 4).endCopy ≤ (Header.mk 4 4 4 4).endOff ∧
     1 ≤ 2 ∧ 2 < 65536 ∧ 2 + (Header.mk 4 4 4 4).beginOff < 65536) ∧
    grow (Header.mk 4 4 4 4) true 2 2 = (2, Header.mk 4 6 4 6) :=
  ⟨⟨by decide, by decide, by decide, by decide, by decide, by decide⟩, by
    have h := (grow_increments_capacity (Header.mk 4 4 4 4) true 2 2
      (by decide) (by decide) (by decide) (by decide) (by decide)
      (by decide)).1 (by decide) rfl (by decide)
    exact h.trans (by decide)⟩

theorem sub16_eq_of_le (a b : Nat) (hb : b ≤ a) (ha : a < 65536) :
    sub16 a b = a - b := by
  unfold sub16
  omega

theorem sub64_eq_of_le (a b : Nat) (hb : b ≤ a)
    (ha : a < 18446744073709551616) : sub64 a b = a - b := by
  unfold sub64
  omega

/-- `TcmallocSlab::GrowOtherCache`: `to_grow = min<uint16_t>(len,
max_cap - (hdr.end - begin))` where `begin` is loaded from the shared
`begins_` array; the header store updates only `end` (this function leaves
`end_copy` untouched). -/
def growOtherCache (hdr : Header) (begins len maxCap : Nat) : Nat × Header :=
  let toGrow := min (wrap16 len) (wrap16 (growHave maxCap begins hdr.endOff))
  (toGrow, { hdr with endOff := wrap16 (hdr.endOff + toGrow) })

/-- Observable outcome of `ShrinkOtherCache`: the returned capacity
decrement, the stored header, and the shrink-handler invocation (word
offset of the batch inside the CPU region plus the items passed), if any. -/
structure ShrinkResult (α : Type) where
  ret : Nat
  hdr : Header
  call : Option (Nat × List α)

/-- The optional pop-and-callback phase of `ShrinkOtherCache`
(`if (unused < len && hdr.current != begin) { ... }`): returns the header
after the `hdr.current -= pop` update together with the shrink-handler
invocation, if one happened. `pop = min<uint16_t>(len - unused,
hdr.current - begin)` and the batch sits at word offset
`hdr.current - pop`. -/
def shrinkPopped {α : Type} (hdr : Header) (slots : Nat → α)
    (begins len : Nat) : Header × Option (Nat × List α) :=
  if sub16 hdr.endOff hdr.current < len ∧ hdr.current ≠ begins then
    ({ hdr with
        current := sub16 hdr.current
          (min (wrap16 (len - sub16 hdr.endOff hdr.current))
            (sub16 hdr.current begins)) },
      some (sub16 hdr.current
          (min (wrap16 (len - sub16 hdr.endOff hdr.current))
            (sub16 hdr.current begins)),
        (List.range
            (min (wrap16 (len - sub16 hdr.endOff hdr.current))
              (sub16 hdr.current begins))).map
          (fun i => slots (sub16 hdr.current
            (min (wrap16 (len - sub16 hdr.endOff hdr.current))
              (sub16 hdr.current begins)) + i))))
  else (hdr, none)

/-- `TcmallocSlab::ShrinkOtherCache`: after the optional pop phase,
`to_shrink = min<uint16_t>(len, hdr.end - hdr.current)` is subtracted from
`end` (only — `end_copy` is not touched) and returned. -/
def shrinkOtherCache {α : Type} (hdr : Header) (slots : Nat → α)
    (begins len : Nat) : ShrinkResult α :=
  { ret := min (wrap16 len)
      (sub16 (shrinkPopped hdr slots begins len).1.endOff
        (shrinkPopped hdr slots begins len).1.current)
    hdr := { (shrinkPopped hdr slots begins len).1 with
        endOff := sub16 (shrinkPopped hdr slots begins len).1.endOff
          (min (wrap16 len)
            (sub16 (shrinkPopped hdr slots begins len).1.endOff
              (shrinkPopped hdr slots begins len).1.current)) }
    call := (shrinkPopped hdr slots begins len).2 }

/-- The `InitCpuImpl` loop over size classes `1 .. num_classes - 1`,
carrying the running word offset `elems` and the previous class's
emptiness. For each class it computes the offset `off` that the code stores
either into `begins_[size_class]` (when `init_begins`) or into the header
as `current = end = off` — the header's `begin` and `end_copy` fields are
left at their zero-initialized values (`Header hdr = {}` sets them to 0 and
only `current` and `end` are assigned). Returns `none` where the C++ code
crashes: a capacity that does not fit `uint16_t`, or the layout exceeding
the `1 << shift` byte region. -/
def initGo (capacity : Nat → Nat) (shift : Nat) :
    List Nat → Nat → Bool → Option (List (Nat × Nat))
  | [], _, _ => some []
  | s :: rest, elems, prevEmpty =>
    if 65536 ≤ capacity s then none
    else
      let e1 := if prevEmpty then elems else elems + 1
      let off := e1 % 65536
      let e2 := e1 + capacity s
      if 2 ^ shift < e2 * 8 then none
      else
        match initGo capacity shift rest e2 (capacity s == 0) with
        | none => none
        | some l => some ((s, off) :: l)

/-- The per-class offsets computed by `InitCpuImpl`: `elems` starts at word
offset `num_classes` (the header array is `num_classes` 8-byte headers and
is already 8-aligned) and `prev_empty` starts `false`. The leading check
models `CHECK_CONDITION((1 << shift) <= (1 << 16) * sizeof(void*))`. -/
def initOffsets (capacity : Nat → Nat) (shift numClasses : Nat) :
    Option (List (Nat × Nat)) :=
  if 65536 * 8 < 2 ^ shift then none
  else initGo capacity shift (List.range' 1 (numClasses - 1)) numClasses false

/-- The headers written by `InitCpuImpl` when `init_begins == false`
(i.e. by `InitCpu` and by phase 1 of `ResizeSlabs`): for each size class the
stored header is `{current = off, end_copy = 0, begin = 0, end = off}`. -/
def initHeaders (capacity : Nat → Nat) (shift numClasses : Nat) :
    Option (List (Nat × Header)) :=
  (initOffsets capacity shift numClasses).map
    (List.map (fun p => (p.1, Header.mk p.2 0 0 p.2)))

/-- The concrete capacity callback of the spec's own E2E scenario
(`num_classes = 3`, `capacity(1) = 2`, `capacity(2) = 3`). -/
def caps3 : Nat → Nat := fun s => if s = 1 then 2 else if s = 2 then 3 else 0

/-- C2 fails on the code: after `InitCpu` (here at the spec's scenario,
`num_classes = 3`, `capacity(1) = 2`, `capacity(2) = 3`, `shift = 18`) the
class-1 header is `{current = 4, end_copy = 0, begin = 0, end = 4}`: the
code writes only `current` and `end`, so `current == end` holds but
`begin` stays 0, and `Length = Capacity = 4`, not 0. -/
theorem initcpu_header_not_empty :
    initHeaders caps3 18 3
        = some [(1, Header.mk 4 0 0 4), (2, Header.mk 7 0 0 7)] ∧
    (Header.mk 4 0 0 4).current = (Header.mk 4 0 0 4).endOff ∧
    (Header.mk 4 0 0 4).beginOff ≠ (Header.mk 4 0 0 4).current ∧
    slabLength (Header.mk 4 0 0 4) = 4 ∧
    slabCapacity (Header.mk 4 0 0 4) = 4 := by decide

/-- C4 fails on the code: at the same concrete input, `Init` stores
`begins_[1] = 4` (the `init_begins` pass) while `InitCpu` leaves the
header's `begin` field at 0, so `begins[s] == header(cpu, s).begin` is
violated for every populated cpu. -/
theorem begins_differ_from_header_begin :
    initOffsets caps3 18 3 = some [(1, 4), (2, 7)] ∧
    initHeaders caps3 18 3
        = some [(1, Header.mk 4 0 0 4), (2, Header.mk 7 0 0 7)] ∧
    (4 : Nat) ≠ (Header.mk 4 0 0 4).beginOff := by decide

/-- C5 fails on the code: `InitCpu` stores `end = 4` but `end_copy = 0`
(so the equality is not established), `GrowOtherCache` increments `end` by
2 while changing `end_copy` by 0, and `ShrinkOtherCache` decrements `end`
by 1 while changing `end_copy` by 0. Only the fast-path `Grow` keeps the
two fields in step. -/
theorem end_copy_not_maintained :
    initHeaders caps3 18 3
        = some [(1, Header.mk 4 0 0 4), (2, Header.mk 7 0 0 7)] ∧
    (Header.mk 4 0 0 4).endCopy ≠ (Header.mk 4 0 0 4).endOff ∧
    growOtherCache (Header.mk 4 0 0 4) 4 2 4 = (2, Header.mk 4 0 0 6) ∧
    (shrinkOtherCache (Header.mk 6 0 0 6) (fun _ => (0 : Nat)) 4 1).hdr
        = Header.mk 5 0 0 5 := by decide

/-- C7: `ShrinkOtherCache(cpu, s, len)` with `len > 0` and the CPU stopped,
on a header with `begin ≤ current ≤ end` (uint16): letting
`unused = end - current`,
(a) if `unused < len` and `current > begin`, it pops
`pop = min(len - unused, current - begin)` items from the top of the slab —
the batch at word offset `current - pop`, i.e. slots
`current - pop .. current - 1`, exactly those items are passed to the
shrink handler — and decreases `current` by `pop`;
(b) otherwise no handler call happens and `current` is unchanged;
(c) afterwards it decreases `end` by `min(len, end - current)` (with the
post-pop `current`) and returns that decrement, leaving `begin` and
`end_copy` untouched. -/
theorem shrink_other_cache_behavior {α : Type} (hdr : Header)
    (slots : Nat → α) (begins len : Nat)
    (h1 : 1 ≤ len) (h2 : len < 65536) (h3 : begins ≤ hdr.current)
    (h4 : hdr.current ≤ hdr.endOff) (h5 : hdr.endOff < 65536) :
    (hdr.endOff - hdr.current < len → begins < hdr.current →
      (shrinkOtherCache hdr slots begins len).call
          = some
              (hdr.current
                 - min (len - (hdr.endOff - hdr.current)) (hdr.current - begins),
               (List.range
                   (min (len - (hdr.endOff - hdr.current)) (hdr.current - begins))).map
                 (fun i => slots
                   (hdr.current
                     - min (len - (hdr.endOff - hdr.current)) (hdr.current - begins)
                     + i))) ∧
      (shrinkOtherCache hdr slots begins len).hdr.current
          = hdr.current
              - min (len - (hdr.endOff - hdr.current)) (hdr.current - begins)) ∧
    ((len ≤ hdr.endOff - hdr.current ∨ hdr.current = begins) →
      (shrinkOtherCache hdr slots begins len).call = none ∧
      (shrinkOtherCache hdr slots begins len).hdr.current = hdr.current) ∧
    ((shrinkOtherCache hdr slots begins len).ret
        = min len
            (hdr.endOff - (shrinkOtherCache hdr slots begins len).hdr.current) ∧
     (shrinkOtherCache hdr slots begins len).hdr.endOff
        = hdr.endOff - (shrinkOtherCache hdr slots begins len).ret ∧
     (shrinkOtherCache hdr slots begins len).hdr.beginOff = hdr.beginOff ∧
     (shrinkOtherCache hdr slots begins len).hdr.endCopy = hdr.endCopy) := by
  have hu : sub16 hdr.endOff hdr.current = hdr.endOff - hdr.current :=
    sub16_eq_of_le _ _ h4 h5
  have hw : wrap16 len = len := by
    unfold wrap16
    omega
  by_cases hcond : sub16 hdr.endOff hdr.current < len ∧ hdr.current ≠ begins
  · obtain ⟨hc1, hc2⟩ := hcond
    have hub : hdr.endOff - hdr.current < len := by omega
    have hbc : begins < hdr.current := by omega
    have hcb : sub16 hdr.current begins = hdr.current - begins :=
      sub16_eq_of_le _ _ h3 (by omega)
    have hwlu : wrap16 (len - (hdr.endOff - hdr.current))
        = len - (hdr.endOff - hdr.current) := by
      unfold wrap16
      omega
    have hcur2 : sub16 hdr.current
        (min (wrap16 (len - sub16 hdr.endOff hdr.current))
          (sub16 hdr.current begins))
        = hdr.current
            - min (len - (hdr.endOff - hdr.current)) (hdr.current - begins) := by
      rw [hu, hcb, hwlu]
      exact sub16_eq_of_le _ _ (by omega) (by omega)
    have hpop0 : shrinkPopped hdr slots begins len
        = ({ hdr with current := (hdr.current
              - min (len - (hdr.endOff - hdr.current)) (hdr.current - begins)) },
            some (hdr.current
                - min (len - (hdr.endOff - hdr.current)) (hdr.current - begins),
              (List.range
                  (min (len - (hdr.endOff - hdr.current))
                    (hdr.current - begins))).map
                (fun i => slots (hdr.current
                  - min (len - (hdr.endOff - hdr.current)) (hdr.current - begins)
                  + i)))) := by
      unfold shrinkPopped
      rw [if_pos ⟨hc1, hc2⟩, hcur2, hu, hcb, hwlu]
    have hs1 : sub16 hdr.endOff
        (hdr.current
          - min (len - (hdr.endOff - hdr.current)) (hdr.current - begins))
        = hdr.endOff
            - (hdr.current
                - min (len - (hdr.endOff - hdr.current)) (hdr.current - begins)) :=
      sub16_eq_of_le _ _ (by omega) h5
    have hs2 : sub16 hdr.endOff
        (min len (hdr.endOff
          - (hdr.current
              - min (len - (hdr.endOff - hdr.current)) (hdr.current - begins))))
        = hdr.endOff
            - min len (hdr.endOff
                - (hdr.current
                    - min (len - (hdr.endOff - hdr.current))
                        (hdr.current - begins))) :=
      sub16_eq_of_le _ _ (by omega) h5
    refine ⟨fun _ _ => ⟨?_, ?_⟩, ?_, ?_, ?_, ?_, ?_⟩
    · simp [shrinkOtherCache, hpop0]
    · simp [shrinkOtherCache, hpop0]
    · intro hno
      exfalso
      rcases hno with hno | hno
      · omega
      · exact hc2 hno
    · simp [shrinkOtherCache, hpop0, hw, hs1, hs2]
    · simp [shrinkOtherCache, hpop0, hw, hs1, hs2]
    · simp [shrinkOtherCache, hpop0]
    · simp [shrinkOtherCache, hpop0]
  · have hpop0 : shrinkPopped hdr slots begins len = (hdr, none) := by
      unfold shrinkPopped
      rw [if_neg hcond]
    have hs1 : sub16 hdr.endOff hdr.current = hdr.endOff - hdr.current := hu
    have hs2 : sub16 hdr.endOff (min len (hdr.endOff - hdr.current))
        = hdr.endOff - min len (hdr.endOff - hdr.current) :=
      sub16_eq_of_le _ _ (by omega) h5
    refine ⟨?_, fun _ => ⟨?_, ?_⟩, ?_, ?_, ?_, ?_⟩
    · intro hub hbc
      exfalso
      exact hcond ⟨by omega, by omega⟩
    · simp [shrinkOtherCache, hpop0]
    · simp [shrinkOtherCache, hpop0]
    · simp [shrinkOtherCache, hpop0, hw, hs1, hs2]
    · simp [shrinkOtherCache, hpop0, hw, hs1, hs2]
    · simp [shrinkOtherCache, hpop0]
    · simp [shrinkOtherCache, hpop0]

theorem shrink_other_cache_behavior_witness :
    (1 ≤ 5 ∧ (5 : Nat) < 65536 ∧ 4 ≤ (Header.mk 7 0 0 9).current ∧
     (Header.mk 7 0 0 9).current ≤ (Header.mk 7 0 0 9).endOff ∧
     (Header.mk 7 0 0 9).endOff < 65536) ∧
    ((shrinkOtherCache (Header.mk 7 0 0 9) (fun i => i * 10) 4 5).call
        = some (4, [40, 50, 60]) ∧
     (shrinkOtherCache (Header.mk 7 0 0 9) (fun i => i * 10) 4 5).hdr.current
        = 4 ∧
     (shrinkOtherCache (Header.mk 7 0 0 9) (fun i => i * 10) 4 5).ret
        = min 5
            (9 - (shrinkOtherCache (Header.mk 7 0 0 9) (fun i => i * 10) 4 5).hdr.current) ∧
     (shrinkOtherCache (Header.mk 7 0 0 9) (fun i => i * 10) 4 5).hdr.endOff
        = 9 - (shrinkOtherCache (Header.mk 7 0 0 9) (fun i => i * 10) 4 5).ret) :=
  ⟨⟨by decide, by decide, by decide, by decide, by decide⟩, by
    have h := shrink_other_cache_behavior (Header.mk 7 0 0 9)
      (fun i => i * 10) 4 5 (by decide) (by decide) (by decide) (by decide)
      (by decide)
    have ha := h.1 (by decide) (by decide)
    exact ⟨ha.1.trans (by decide), ha.2.trans (by decide),
      h.2.2.1, h.2.2.2.1⟩⟩

/-- One drain-handler invocation as observed through `DrainCpu`: the cpu,
the size class, the word offset of the batch inside the CPU region, the
items the batch holds, and the reported `size` and `cap` arguments. -/
structure DrainCall (α : Type) where
  cpu : Nat
  sizeClass : Nat
  batchOff : Nat
  items : List α
  size : Nat
  cap : Nat
  deriving DecidableEq

/-- The body of the `DrainCpu` loop for one size class: classes whose
header has `current == 0` are skipped; otherwise the handler is called with
`size = hdr.current - begin` and `cap = hdr.end - begin` (`size_t`
subtractions, with `begin` loaded from the shared `begins_` array) and the
batch pointing at word offset `begin`. -/
def drainCall {α : Type} (headers : Nat → Header) (slots : Nat → α)
    (begins : Nat → Nat) (cpu s : Nat) : Option (DrainCall α) :=
  if (headers s).current = 0 then none
  else
    some
      { cpu := cpu
        sizeClass := s
        batchOff := begins s
        items := (List.range (sub64 (headers s).current (begins s))).map
          (fun i => slots (begins s + i))
        size := sub64 (headers s).current (begins s)
        cap := sub64 (headers s).endOff (begins s) }

/-- The drain-handler invocations of `DrainCpu(slabs, shift, cpu)`, in loop
order over size classes `1 .. num_classes - 1`. -/
def drainCalls {α : Type} (headers : Nat → Header) (slots : Nat → α)
    (begins : Nat → Nat) (numClasses cpu : Nat) : List (DrainCall α) :=
  (List.range' 1 (numClasses - 1)).filterMap
    (drainCall headers slots begins cpu)

/-- The headers after `DrainCpu`: every non-skipped class in
`1 .. num_classes - 1` is stored back with `current = begin, end = begin`
(the loaded `begin` and `end_copy` fields are stored back unchanged);
skipped classes (`current == 0`) and out-of-range indices are untouched. -/
def drainHeaders (headers : Nat → Header) (begins : Nat → Nat)
    (numClasses : Nat) : Nat → Header :=
  fun s =>
    if 1 ≤ s ∧ s < numClasses ∧ (headers s).current ≠ 0 then
      { headers s with current := begins s, endOff := begins s }
    else headers s

theorem filterMap_eq_map_of {β γ : Type} (l : List β) (f : β → Option γ)
    (g : β → γ) (h : ∀ x ∈ l, f x = some (g x)) :
    l.filterMap f = l.map g := by
  induction l with
  | nil => rfl
  | cons a t ih =>
    rw [List.filterMap_cons, h a (by simp), List.map_cons,
      ih (fun x hx => h x (by simp [hx]))]

/-- C3: after `Drain(cpu)` — the CPU being stopped and every size class in
`1 .. num_classes - 1` initialized (`current ≠ 0`) with sane offsets
(`begin ≤ current ≤ end < 2^16`, where `begin` is the shared `begins_[s]`
value that `DrainCpu` reads) — every size class header satisfies
`current(s) == end(s) == begin(s)`, and for each class the drain handler
was invoked exactly once with `size = current - begin`,
`cap = end - begin`, and the batch pointing at the slots starting at word
offset `begin` inside the CPU region. -/
theorem drain_resets_headers_and_reports {α : Type} (headers : Nat → Header)
    (slots : Nat → α) (begins : Nat → Nat) (numClasses cpu : Nat)
    (hok : ∀ s, s < numClasses → 1 ≤ s →
      (headers s).current ≠ 0 ∧ begins s ≤ (headers s).current ∧
        (headers s).current ≤ (headers s).endOff ∧
          (headers s).endOff < 65536) :
    (∀ s, s < numClasses → 1 ≤ s →
      (drainHeaders headers begins numClasses s).current = begins s ∧
      (drainHeaders headers begins numClasses s).endOff = begins s) ∧
    drainCalls headers slots begins numClasses cpu
      = (List.range' 1 (numClasses - 1)).map (fun s =>
          { cpu := cpu
            sizeClass := s
            batchOff := begins s
            items := (List.range ((headers s).current - begins s)).map
              (fun i => slots (begins s + i))
            size := (headers s).current - begins s
            cap := (headers s).endOff - begins s }) := by
  constructor
  · intro s hs hs1
    have h := hok s hs hs1
    unfold drainHeaders
    rw [if_pos ⟨hs1, hs, h.1⟩]
    exact ⟨rfl, rfl⟩
  · unfold drainCalls
    apply filterMap_eq_map_of
    intro s hsmem
    have hrange := (List.mem_range'_1).1 hsmem
    have hs1 : 1 ≤ s := hrange.1
    have hs : s < numClasses := by omega
    have h := hok s hs hs1
    unfold drainCall
    rw [if_neg (by simpa using h.1)]
    have hsz : sub64 (headers s).current (begins s)
        = (headers s).current - begins s :=
      sub64_eq_of_le _ _ h.2.1 (by omega)
    have hcp : sub64 (headers s).endOff (begins s)
        = (headers s).endOff - begins s :=
      sub64_eq_of_le _ _ (by omega) (by omega)
    rw [hsz, hcp]

theorem drain_resets_headers_and_reports_witness :
    (∀ s, s < 3 → 1 ≤ s →
      ((fun s => if s = 1 then Header.mk 6 0 0 6
          else if s = 2 then Header.mk 8 0 0 9 else Header.mk 0 0 0 0) s).current ≠ 0 ∧
      (fun s => if s = 1 then 4 else 7) s
          ≤ ((fun s => if s = 1 then Header.mk 6 0 0 6
              else if s = 2 then Header.mk 8 0 0 9 else Header.mk 0 0 0 0) s).current ∧
      ((fun s => if s = 1 then Header.mk 6 0 0 6
          else if s = 2 then Header.mk 8 0 0 9 else Header.mk 0 0 0 0) s).current
          ≤ ((fun s => if s = 1 then Header.mk 6 0 0 6
              else if s = 2 then Header.mk 8 0 0 9 else Header.mk 0 0 0 0) s).endOff ∧
      ((fun s => if s = 1 then Header.mk 6 0 0 6
          else if s = 2 then Header.mk 8 0 0 9 else Header.mk 0 0 0 0) s).endOff < 65536) ∧
    ((∀ s, s < 3 → 1 ≤ s →
      (drainHeaders
          (fun s => if s = 1 then Header.mk 6 0 0 6
            else if s = 2 then Header.mk 8 0 0 9 else Header.mk 0 0 0 0)
          (fun s => if s = 1 then 4 else 7) 3 s).current
          = (fun s => if s = 1 then 4 else 7) s ∧
      (drainHeaders
          (fun s => if s = 1 then Header.mk 6 0 0 6
            else if s = 2 then Header.mk 8 0 0 9 else Header.mk 0 0 0 0)
          (fun s => if s = 1 then 4 else 7) 3 s).endOff
          = (fun s => if s = 1 then 4 else 7) s) ∧
     drainCalls
        (fun s => if s = 1 then Header.mk 6 0 0 6
          else if s = 2 then Header.mk 8 0 0 9 else Header.mk 0 0 0 0)
        (fun i => 100 + i) (fun s => if s = 1 then 4 else 7) 3 0
        = [DrainCall.mk 0 1 4 [104, 105] 2 2, DrainCall.mk 0 2 7 [107] 1 2]) :=
  ⟨by decide, by
    have h := drain_resets_headers_and_reports
      (fun s => if s = 1 then Header.mk 6 0 0 6
        else if s = 2 then Header.mk 8 0 0 9 else Header.mk 0 0 0 0)
      (fun i => 100 + i) (fun s => if s = 1 then 4 else 7) 3 0 (by decide)
    exact ⟨h.1, h.2.trans (by decide)⟩⟩

/-- Events of `ResizeSlabs`, in program order: stopping a CPU and
pre-initializing its headers in the new region (phase 1), the
`FenceAllCpus()` (end of phase 1), one drain-handler delivery per
(cpu, size class) with items (phase 2), the relaxed store publishing
`(new_slabs, new_shift)` into `slabs_and_shift_` (phase 3), and the
per-CPU restarts (phase 4). -/
inductive REvent (α : Type) where
  | stopCpu (cpu : Nat)
  | initNewCpu (cpu : Nat)
  | fenceAll
  | deliver (call : DrainCall α)
  | publish
  | restartCpu (cpu : Nat)
  deriving DecidableEq

def isPublish {α : Type} : REvent α → Bool
  | REvent.publish => true
  | _ => false

def isDeliver {α : Type} : REvent α → Bool
  | REvent.deliver _ => true
  | _ => false

/-- Phase 1 of `ResizeSlabs`: for each cpu in order, `stopped_[cpu] = true`
followed by `InitCpuImpl` on the new slab region when `populated(cpu)`. -/
def resizePhase1 {α : Type} (numCpus : Nat) (populated : Nat → Bool) :
    List (REvent α) :=
  (List.range numCpus).flatMap (fun c =>
    REvent.stopCpu c :: if populated c then [REvent.initNewCpu c] else [])

/-- Phase 2 of `ResizeSlabs`: `DrainCpu(old_slabs, old_shift, cpu)` for
every populated cpu, emitting one delivery per non-skipped size class. -/
def resizeDrains {α : Type} (headers : Nat → Nat → Header)
    (slots : Nat → Nat → α) (begins : Nat → Nat)
    (numCpus numClasses : Nat) (populated : Nat → Bool) : List (REvent α) :=
  (List.range numCpus).flatMap (fun c =>
    if populated c then
      (drainCalls (headers c) (slots c) begins numClasses c).map
        REvent.deliver
    else [])

/-- The full event trace of `ResizeSlabs` over the old slab bank
(`headers`/`slots` index cpu first): phase 1, fence, phase-2 drains, the
publishing store, phase-4 restarts. -/
def resizeTrace {α : Type} (headers : Nat → Nat → Header)
    (slots : Nat → Nat → α) (begins : Nat → Nat)
    (numCpus numClasses : Nat) (populated : Nat → Bool) : List (REvent α) :=
  resizePhase1 numCpus populated ++ [REvent.fenceAll] ++
    resizeDrains headers slots begins numCpus numClasses populated ++
    [REvent.publish] ++ (List.range numCpus).map REvent.restartCpu

/-- The items handed to the drain handler by a list of events, in order and
with multiplicity. -/
def deliveredItems {α : Type} (es : List (REvent α)) : List α :=
  es.flatMap (fun e => match e with
    | REvent.deliver c => c.items
    | _ => [])

/-- The occupied slots of one (cpu, size class) slab: contents of word
offsets `begin .. current - 1` (empty when `current ≤ begin`, in
particular for a never-initialized class with `current = 0`). -/
def occupiedItems {α : Type} (hdr : Header) (slots : Nat → α)
    (begino : Nat) : List α :=
  (List.range (hdr.current - begino)).map (fun i => slots (begino + i))

/-- Every item present in the old slab bank, cpu by cpu, class by class. -/
def bankItems {α : Type} (headers : Nat → Nat → Header)
    (slots : Nat → Nat → α) (begins : Nat → Nat)
    (numCpus numClasses : Nat) : List α :=
  (List.range numCpus).flatMap (fun c =>
    (List.range' 1 (numClasses - 1)).flatMap (fun s =>
      occupiedItems (headers c s) (slots c) (begins s)))

theorem takeWhile_append_all {β : Type} (p : β → Bool) (A B : List β)
    (h : ∀ e ∈ A, p e = true) :
    (A ++ B).takeWhile p = A ++ B.takeWhile p := by
  induction A with
  | nil => rfl
  | cons a t ih =>
    rw [List.cons_append, List.takeWhile_cons, h a (by simp),
      List.cons_append, ih (fun e he => h e (by simp [he]))]
    simp

theorem dropWhile_append_all {β : Type} (p : β → Bool) (A B : List β)
    (h : ∀ e ∈ A, p e = true) :
    (A ++ B).dropWhile p = B.dropWhile p := by
  induction A with
  | nil => rfl
  | cons a t ih =>
    rw [List.cons_append, List.dropWhile_cons_of_pos (h a (by simp)),
      ih (fun e he => h e (by simp [he]))]

theorem deliveredItems_append {α : Type} (A B : List (REvent α)) :
    deliveredItems (A ++ B) = deliveredItems A ++ deliveredItems B := by
  unfold deliveredItems
  exact List.flatMap_append A B _

theorem deliveredItems_nil_of_no_deliver {α : Type} (A : List (REvent α))
    (h : ∀ e ∈ A, isDeliver e = false) : deliveredItems A = [] := by
  induction A with
  | nil => rfl
  | cons a t ih =>
    have ha := h a (by simp)
    have ht := ih (fun e he => h e (by simp [he]))
    cases a <;> simp [deliveredItems, isDeliver] at ha ⊢ <;>
      simpa [deliveredItems] using ht

theorem phase1_no_deliver {α : Type} (numCpus : Nat)
    (populated : Nat → Bool) :
    ∀ e ∈ (resizePhase1 numCpus populated : List (REvent α)),
      isDeliver e = false := by
  intro e he
  unfold resizePhase1 at he
  rw [List.mem_flatMap] at he
  obtain ⟨c, _, hec⟩ := he
  rcases List.mem_cons.1 hec with rfl | hec
  · rfl
  · by_cases hp : populated c
    · rw [if_pos hp] at hec
      rcases List.mem_singleton.1 hec with rfl
      rfl
    · rw [if_neg hp] at hec
      exact absurd hec (List.not_mem_nil e)

theorem phase1_no_publish {α : Type} (numCpus : Nat)
    (populated : Nat → Bool) :
    ∀ e ∈ (resizePhase1 numCpus populated : List (REvent α)),
      isPublish e = false := by
  intro e he
  unfold resizePhase1 at he
  rw [List.mem_flatMap] at he
  obtain ⟨c, _, hec⟩ := he
  rcases List.mem_cons.1 hec with rfl | hec
  · rfl
  · by_cases hp : populated c
    · rw [if_pos hp] at hec
      rcases List.mem_singleton.1 hec with rfl
      rfl
    · rw [if_neg hp] at hec
      exact absurd hec (List.not_mem_nil e)

theorem drains_no_publish {α : Type} (headers : Nat → Nat → Header)
    (slots : Nat → Nat → α) (begins : Nat → Nat)
    (numCpus numClasses : Nat) (populated : Nat → Bool) :
    ∀ e ∈ resizeDrains headers slots begins numCpus numClasses populated,
      isPublish e = false := by
  intro e he
  unfold resizeDrains at he
  rw [List.mem_flatMap] at he
  obtain ⟨c, _, hec⟩ := he
  by_cases hp : populated c
  · rw [if_pos hp] at hec
    rw [List.mem_map] at hec
    obtain ⟨call, _, rfl⟩ := hec
    rfl
  · rw [if_neg hp] at hec
    exact absurd hec (List.not_mem_nil e)

theorem filterMap_flatMap_items {β : Type} (l : List Nat)
    (f : Nat → Option (DrainCall β)) (g : Nat → List β)
    (h : ∀ s ∈ l,
      (match f s with | none => [] | some c => c.items) = g s) :
    (l.filterMap f).flatMap DrainCall.items = l.flatMap g := by
  induction l with
  | nil => rfl
  | cons a t ih =>
    have ha := h a (by simp)
    have ht := ih (fun s hs => h s (by simp [hs]))
    rw [List.filterMap_cons]
    cases hfa : f a with
    | none =>
      rw [hfa] at ha
      rw [List.flatMap_cons, ← ha, List.nil_append, ht]
    | some c =>
      rw [hfa] at ha
      rw [List.flatMap_cons, List.flatMap_cons, ← ha, ht]

/-- The items delivered by one `DrainCpu` equal the occupied slots of that
cpu, class by class, provided every class with `current ≠ 0` has
`begins[s] ≤ current < 2^16` (classes with `current = 0` are skipped by
the drain and hold no items). -/
theorem drain_items_eq_occupied {α : Type} (headers : Nat → Header)
    (slots : Nat → α) (begins : Nat → Nat) (numClasses cpu : Nat)
    (hok : ∀ s, s < numClasses → 1 ≤ s → (headers s).current ≠ 0 →
      begins s ≤ (headers s).current ∧ (headers s).current < 65536) :
    (drainCalls headers slots begins numClasses cpu).flatMap
        DrainCall.items
      = (List.range' 1 (numClasses - 1)).flatMap (fun s =>
          occupiedItems (headers s) slots (begins s)) := by
  unfold drainCalls
  apply filterMap_flatMap_items
  intro s hsmem
  have hrange := (List.mem_range'_1).1 hsmem
  have hs1 : 1 ≤ s := hrange.1
  have hs : s < numClasses := by omega
  unfold drainCall
  by_cases hz : (headers s).current = 0
  · rw [if_pos hz]
    unfold occupiedItems
    rw [hz]
    simp
  · rw [if_neg hz]
    have h := hok s hs hs1 hz
    unfold occupiedItems
    rw [sub64_eq_of_le _ _ h.1 (by omega)]

theorem deliveredItems_flatMap {α β : Type} (l : List β)
    (f : β → List (REvent α)) :
    deliveredItems (l.flatMap f) = l.flatMap (fun b => deliveredItems (f b)) := by
  induction l with
  | nil => rfl
  | cons a t ih =>
    rw [List.flatMap_cons, deliveredItems_append, ih, List.flatMap_cons]

theorem deliveredItems_map_deliver {α : Type} (cs : List (DrainCall α)) :
    deliveredItems (cs.map REvent.deliver) = cs.flatMap DrainCall.items := by
  induction cs with
  | nil => rfl
  | cons a t ih =>
    rw [List.map_cons, List.flatMap_cons, ← ih]
    rfl

theorem flatMap_eq_nil_of {β γ : Type} (l : List β) (f : β → List γ)
    (h : ∀ x ∈ l, f x = []) : l.flatMap f = [] := by
  induction l with
  | nil => rfl
  | cons a t ih =>
    rw [List.flatMap_cons, h a (by simp), List.nil_append,
      ih (fun x hx => h x (by simp [hx]))]

theorem flatMap_congr_mem {β γ : Type} (l : List β) (f g : β → List γ)
    (h : ∀ x ∈ l, f x = g x) : l.flatMap f = l.flatMap g := by
  induction l with
  | nil => rfl
  | cons a t ih =>
    rw [List.flatMap_cons, List.flatMap_cons, h a (by simp),
      ih (fun x hx => h x (by simp [hx]))]

/-- C8: during `ResizeSlabs`, when every populated cpu's initialized
classes have sane offsets (`begins[s] ≤ current < 2^16` whenever
`current ≠ 0`) and non-populated cpus hold no items (`current = 0` for all
their classes), then in the event trace of the resize:
the publishing store of `(new_slabs, new_shift)` occurs; the items
delivered to the drain handler strictly before that store are exactly the
items present in the old slab bank, each exactly once (list equality, so
with multiplicity and in order); and no event at or after the store is a
delivery. -/
theorem resize_delivers_before_publish {α : Type}
    (headers : Nat → Nat → Header) (slots : Nat → Nat → α)
    (begins : Nat → Nat) (numCpus numClasses : Nat) (populated : Nat → Bool)
    (hok : ∀ c, c < numCpus → ∀ s, s < numClasses → 1 ≤ s →
      ((headers c s).current ≠ 0 →
        begins s ≤ (headers c s).current ∧ (headers c s).current < 65536))
    (hunpop : ∀ c, c < numCpus → populated c = false →
      ∀ s, s < numClasses → 1 ≤ s → (headers c s).current = 0) :
    REvent.publish ∈
      resizeTrace headers slots begins numCpus numClasses populated ∧
    deliveredItems
        ((resizeTrace headers slots begins numCpus numClasses
            populated).takeWhile (fun e => !isPublish e))
      = bankItems headers slots begins numCpus numClasses ∧
    (∀ e ∈ (resizeTrace headers slots begins numCpus numClasses
        populated).dropWhile (fun e => !isPublish e),
      isDeliver e = false) := by
  have hp1 : ∀ e ∈ (resizePhase1 numCpus populated : List (REvent α)),
      (!isPublish e) = true := by
    intro e he
    rw [phase1_no_publish numCpus populated e he]
    rfl
  have hd : ∀ e ∈ resizeDrains headers slots begins numCpus numClasses
      populated, (!isPublish e) = true := by
    intro e he
    rw [drains_no_publish headers slots begins numCpus numClasses populated
      e he]
    rfl
  have htake : (resizeTrace headers slots begins numCpus numClasses
      populated).takeWhile (fun e => !isPublish e)
      = resizePhase1 numCpus populated ++ REvent.fenceAll ::
          resizeDrains headers slots begins numCpus numClasses populated := by
    unfold resizeTrace
    simp only [List.append_assoc]
    rw [takeWhile_append_all _ _ _ hp1, List.singleton_append,
      List.takeWhile_cons_of_pos (by rfl),
      takeWhile_append_all _ _ _ hd, List.singleton_append,
      List.takeWhile_cons_of_neg (by simp [isPublish]), List.append_nil]
  have hdrop : (resizeTrace headers slots begins numCpus numClasses
      populated).dropWhile (fun e => !isPublish e)
      = REvent.publish ::
          ((List.range numCpus).map REvent.restartCpu : List (REvent α)) := by
    unfold resizeTrace
    simp only [List.append_assoc]
    rw [dropWhile_append_all _ _ _ hp1, List.singleton_append,
      List.dropWhile_cons_of_pos (by rfl),
      dropWhile_append_all _ _ _ hd, List.singleton_append,
      List.dropWhile_cons_of_neg (by simp [isPublish])]
  refine ⟨?_, ?_, ?_⟩
  · unfold resizeTrace
    simp
  · rw [htake, deliveredItems_append,
      deliveredItems_nil_of_no_deliver _ (phase1_no_deliver numCpus populated),
      List.nil_append]
    have hfence : deliveredItems (REvent.fenceAll ::
        resizeDrains headers slots begins numCpus numClasses populated)
        = deliveredItems
            (resizeDrains headers slots begins numCpus numClasses populated) := by
      unfold deliveredItems
      rw [List.flatMap_cons, List.nil_append]
    rw [hfence]
    unfold resizeDrains bankItems
    rw [deliveredItems_flatMap]
    apply flatMap_congr_mem
    intro c hc
    have hclt : c < numCpus := List.mem_range.1 hc
    by_cases hp : populated c = true
    · rw [if_pos hp, deliveredItems_map_deliver]
      exact drain_items_eq_occupied (headers c) (slots c) begins numClasses c
        (fun s hs hs1 hnz => hok c hclt s hs hs1 hnz)
    · have hp' : populated c = false := by
        simpa using hp
      rw [if_neg hp]
      symm
      apply flatMap_eq_nil_of
      intro s hsmem
      have hrange := (List.mem_range'_1).1 hsmem
      have hz := hunpop c hclt hp' s (by omega) hrange.1
      unfold occupiedItems
      rw [hz]
      simp
  · rw [hdrop]
    intro e he
    rcases List.mem_cons.1 he with rfl | he
    · rfl
    · rw [List.mem_map] at he
      obtain ⟨c, _, rfl⟩ := he
      rfl

theorem resize_delivers_before_publish_witness :
    ((∀ c, c < 1 → ∀ s, s < 2 → 1 ≤ s →
      (((fun _ _ => Header.mk 5 0 0 5) c s).current ≠ 0 →
        (fun _ => 3) s ≤ ((fun _ _ => Header.mk 5 0 0 5) c s).current ∧
          ((fun _ _ => Header.mk 5 0 0 5) c s).current < 65536)) ∧
     (∀ c, c < 1 → (fun _ => true) c = false →
      ∀ s, s < 2 → 1 ≤ s → ((fun _ _ => Header.mk 5 0 0 5) c s).current = 0)) ∧
    (REvent.publish ∈
      resizeTrace (fun _ _ => Header.mk 5 0 0 5)
        (fun _ i => i * 10) (fun _ => 3) 1 2 (fun _ => true) ∧
     deliveredItems
        ((resizeTrace (fun _ _ => Header.mk 5 0 0 5)
            (fun _ i => i * 10) (fun _ => 3) 1 2
            (fun _ => true)).takeWhile (fun e => !isPublish e))
        = bankItems (fun _ _ => Header.mk 5 0 0 5)
            (fun _ i => i * 10) (fun _ => 3) 1 2 ∧
     (∀ e ∈ (resizeTrace (fun _ _ => Header.mk 5 0 0 5)
          (fun _ i => i * 10) (fun _ => 3) 1 2
          (fun _ => true)).dropWhile (fun e => !isPublish e),
        isDeliver e = false)) :=
  ⟨⟨by decide, by decide⟩,
    resize_delivers_before_publish (fun _ _ => Header.mk 5 0 0 5)
      (fun _ i => i * 10) (fun _ => 3) 1 2 (fun _ => true)
      (by decide) (by decide)⟩

end PerCpuTcmalloc
